import Mathlib

/-!
Verification of the project synchronization engine (status / pull / push
subcommands of `cli/smartling/project.go`) against its specification.

The Go code is shallowly embedded: path manipulation from the standard
library (`filepath.Clean`, `Join`, `Rel`, `Dir`, `Base`, `Ext`) is modelled
character-exactly on `List Char`; the remote-service client is a parameter
(a function from paths and locales to statuses); the observable behaviour of
a command run is a list of effects (uploads, status queries, deletions,
printed report lines).
-/

namespace Smartling

/-- Split a character list on `/`, keeping empty components, exactly as the
slash-separated component decomposition used by Go's lexical path routines.
`splitSlash "a//b".data = [[a], [], [b]]` and `splitSlash [] = [[]]`. -/
def splitSlash : List Char → List (List Char)
  | [] => [[]]
  | c :: cs =>
    if c = '/' then [] :: splitSlash cs
    else
      match splitSlash cs with
      | [] => [[c]]
      | g :: gs => (c :: g) :: gs

/-- Join components back with `/` separators; left inverse of `splitSlash`. -/
def joinSlash : List (List Char) → List Char
  | [] => []
  | [g] => g
  | g :: gs => g ++ '/' :: joinSlash gs

/-- One step of the stack-based lexical cleaning loop of Go's
`filepath.Clean`: empty and `.` components are dropped, `..` pops a real
component (or is kept when nothing can be popped and the path is not
rooted), and real components are pushed. The stack holds components in
reverse order. -/
def cleanStep (rooted : Bool) (st : List (List Char)) (comp : List Char) : List (List Char) :=
  if comp = [] ∨ comp = ['.'] then st
  else if comp = ['.', '.'] then
    match st with
    | [] => if rooted then [] else [['.', '.']]
    | top :: rest => if top = ['.', '.'] then comp :: st else rest
  else comp :: st

/-- Whether the path is rooted, i.e. starts with `/`. -/
def isRooted : List Char → Bool
  | [] => false
  | c :: _ => c == '/'

/-- Go's `filepath.Clean` (Unix rules) on a character list: shortest lexical
equivalent of the path, `.` for an empty result, leading `/` preserved. -/
def goCleanL (l : List Char) : List Char :=
  if l = [] then ['.']
  else
    let rooted := isRooted l
    let comps := (splitSlash l).foldl (cleanStep rooted) []
    let body := joinSlash comps.reverse
    if rooted then '/' :: body
    else if body = [] then ['.'] else body

/-- Go's `filepath.Clean` on strings. -/
def goClean (s : String) : String :=
  String.mk (goCleanL s.data)

/-- Go's `filepath.Join` of two elements (Unix): empty elements are skipped
and the joined path is cleaned; the join of two empty elements is empty. -/
def goJoin (a b : String) : String :=
  if a = "" then (if b = "" then "" else goClean b)
  else if b = "" then goClean a
  else goClean (a ++ "/" ++ b)

/-- Go's `filepath.Rel "." targ` (Unix): after cleaning, a rooted target is
an error (`none`), the cleaned target itself is returned otherwise. -/
def goRelDot (targ : String) : Option String :=
  let t := goCleanL targ.data
  if t.head? = some '/' then none else some (String.mk t)

/-- Go's `filepath.Dir`: everything up to and including the final slash,
cleaned; `.` when the path holds no slash. -/
def goDir (s : String) : String :=
  String.mk (goCleanL ((s.data.reverse.dropWhile (fun c => c ≠ '/')).reverse))

/-- Go's `filepath.Base`: the last element of the path after trailing
slashes are removed; `.` for the empty path and `/` for all-slash paths. -/
def goBase (s : String) : String :=
  if s = "" then "."
  else
    let rev := s.data.reverse.dropWhile (fun c => c = '/')
    let b := rev.takeWhile (fun c => c ≠ '/')
    if b = [] then "/" else String.mk b.reverse

/-- Go's `filepath.Ext`: the suffix of the final element starting at its
last dot, empty when the final element holds no dot. -/
def goExt (s : String) : String :=
  let revTail := s.data.reverse.takeWhile (fun c => c ≠ '/')
  if revTail.contains '.' then
    String.mk ((revTail.takeWhile (fun c => c ≠ '.') ++ ['.']).reverse)
  else ""

/-- Function `cleanPrefix` from `project.go`: root the prefix, clean it, and map the
bare `/` back to the empty prefix. -/
def cleanPrefix (s : String) : String :=
  let t := goClean ("/" ++ s)
  if t = "/" then "" else t

/-- Modelled from the spec: the per-(file, locale) status snapshot of the
external translation-service client. The spec's data model states that the
awaiting-authorization and in-progress counts are each derived as sums over
finer-grained sub-state sources and that the completed count is a single
field; the Go type itself lives in the external client library, outside
this repository. -/
structure FileStatus where
  awaitingSubs : List Nat
  inProgressSubs : List Nat
  completedStringCount : Nat
deriving DecidableEq

/-- Awaiting-authorization count: the sum over its sub-state sources. -/
def FileStatus.awaitingAuthorizationCount (fs : FileStatus) : Nat :=
  fs.awaitingSubs.sum

/-- In-progress count: the sum over its sub-state sources. -/
def FileStatus.inProgressCount (fs : FileStatus) : Nat :=
  fs.inProgressSubs.sum

/-- Observable side effects of a push run on the remote service and on the
operator's terminal. -/
inductive Effect where
  | upload (remotePath : String) (localPath : String)
  | statusQuery (remotePath : String) (locale : String)
  | delete (remotePath : String)
  | printCount (count : Nat) (remotePath : String)
deriving DecidableEq

/-- True exactly on `printCount` effects (the per-file count report line). -/
def Effect.isPrintEffect : Effect → Bool
  | .printCount _ _ => true
  | _ => false

/-- True exactly on `delete` effects. -/
def Effect.isDeleteEffect : Effect → Bool
  | .delete _ => true
  | _ => false

/-- Outcome of one per-file unit of the push command. -/
structure PushOutcome where
  remoteFile : String
  hasNewStrings : Bool
  effects : List Effect
deriving DecidableEq

/-- One per-file unit of `projectPushCommand` (`project.go` lines 180-208):
compute the remote path `filepath.Clean(prefix + "/" + projectFilepath)`,
upload, query the status of the first locale, and - only under a non-empty
prefix - delete the upload and suppress the count line when the
awaiting-authorization count is zero. `g` is the client's status query. -/
def pushFile (g : String → String → FileStatus) (firstLocale pfx p : String) : PushOutcome :=
  let remoteFile := goClean (pfx ++ "/" ++ p)
  let fs := g remoteFile firstLocale
  let hasNewStrings := true
  let step : List Effect × Bool :=
    if pfx ≠ "" then
      if fs.awaitingAuthorizationCount = 0 then ([Effect.delete remoteFile], false)
      else ([], hasNewStrings)
    else ([], hasNewStrings)
  let printEffs : List Effect :=
    if step.2 then [Effect.printCount fs.awaitingAuthorizationCount remoteFile] else []
  { remoteFile := remoteFile
    hasNewStrings := step.2
    effects := Effect.upload remoteFile p :: Effect.statusQuery remoteFile firstLocale ::
      step.1 ++ printEffs }

/-- The push command (`project.go` lines 170-211): fetch the locale list,
take the first locale - `locales[0]` panics (`none`) on an empty list before
any per-file unit is dispatched - and run one unit per project file. The
returned effect list concatenates the per-file effects. -/
def projectPushRun (g : String → String → FileStatus) (locales : List String)
    (pfx : String) (files : List String) : Option (List Effect) :=
  match locales with
  | [] => none
  | l :: _ => some (files.flatMap fun p => (pushFile g l pfx p).effects)

/-- The status matrix: a lookup from project file and locale to the stored
snapshot, `none` when the pair was never written. -/
def StatusMatrix : Type := String → String → Option FileStatus

/-- Write one (file, locale) cell, as `statuses[projectFilepath][locale] = fs`. -/
def insertStatus (m : StatusMatrix) (f l : String) (fs : FileStatus) : StatusMatrix :=
  fun f0 l0 => if f0 = f ∧ l0 = l then some fs else m f0 l0

/-- The empty matrix. -/
def emptyMatrix : StatusMatrix := fun _ _ => none

/-- The matrix-building loop of `projectStatusCommand` (`project.go` lines
46-74): for every project file obtain a disposable remote handle `tmp f`
(the temp-upload adapter, an external collaborator), then for every locale
store the client's status for that handle under the (file, locale) key. -/
def projectStatusRun (tmp : String → String) (g : String → String → FileStatus)
    (files locales : List String) : StatusMatrix :=
  files.foldl
    (fun m f => locales.foldl (fun m2 l => insertStatus m2 f l (g (tmp f) l)) m)
    emptyMatrix

/-- The zero value of the client's status record: a missing map key in Go
reads as the zero value, whose three counts are all zero. -/
def zeroFileStatus : FileStatus :=
  { awaitingSubs := [], inProgressSubs := [], completedStringCount := 0 }

/-- One cell of the status table (`project.go` line 93):
`fmt.Fprint(w, "\t", awaiting, "->", inProgress, "->", completed)` - Go's
`Fprint` adds a space only between two adjacent non-string operands, and
here every adjacent pair involves a string, so the cell carries no spaces. -/
def statusCell (fs : FileStatus) : String :=
  "\t" ++ toString fs.awaitingAuthorizationCount ++ "->" ++
    toString fs.inProgressCount ++ "->" ++ toString fs.completedStringCount

/-- One row of the status table (`project.go` lines 89-96): the file path
followed by one cell per locale, then a newline. -/
def statusRow (m : StatusMatrix) (locales : List String) (f : String) : String :=
  f ++ String.join (locales.map fun l => statusCell ((m f l).getD zeroFileStatus)) ++ "\n"

/-- Function `localRelativeFilePath` from `project.go` (lines 235-239):
`filepath.Rel(".", filepath.Join(ProjectConfig.path, remotepath))`, with the
project root `ProjectConfig.path` as an explicit parameter; `none` models
the panic on a `Rel` error. -/
def localRelativeFilePath (root p : String) : Option String :=
  goRelDot (goJoin root p)

/-- The filename parts handed to the pull-path template (`project.go` lines
226-248); `PathWithoutExt` stays at its zero value, as in the code. -/
structure FilenameParts where
  Path : String
  Base : String
  Dir : String
  Ext : String
  PathWithoutExt : String
  Locale : String
deriving DecidableEq

/-- Modelled from the spec: the external `text/template` engine is a
template-expansion collaborator over filename parts, so a parsed template is
a list of tokens - literal text or one of the part fields - and the empty
template string parses to the empty token list. -/
inductive TemplToken where
  | lit (s : String)
  | fPath
  | fBase
  | fDir
  | fExt
  | fPathWithoutExt
  | fLocale
deriving DecidableEq

/-- Render one token against the filename parts. -/
def TemplToken.render (parts : FilenameParts) : TemplToken → String
  | .lit s => s
  | .fPath => parts.Path
  | .fBase => parts.Base
  | .fDir => parts.Dir
  | .fExt => parts.Ext
  | .fPathWithoutExt => parts.PathWithoutExt
  | .fLocale => parts.Locale

/-- Execute a parsed template against the filename parts. -/
def renderTemplate (t : List TemplToken) (parts : FilenameParts) : String :=
  String.join (t.map (TemplToken.render parts))

/-- Modelled from the spec: `defaultPullDestination` is a package variable
defined outside this source file; the spec says the default template uses
the project-relative path when no custom template is supplied, so it is the
(non-empty) template rendering the path itself. -/
def defaultPullDestination : List TemplToken := [TemplToken.fPath]

/-- Function `localPullFilePath` from `project.go` (lines 241-267): build the
filename parts of the project path, pick the template - the code tests
`dt != ""` on the default template, not on the configured one, so a
non-empty default always selects the configured `PullFilePath`, even when
that is empty - render it, and normalize the result against the project
root. `pullFilePathCfg` is `ProjectConfig.FileConfig.PullFilePath` as a
parsed template (`[]` when no custom template is configured). -/
def localPullFilePath (root : String) (pullFilePathCfg : List TemplToken)
    (p locale : String) : Option String :=
  let parts : FilenameParts :=
    { Path := p, Dir := goDir p, Base := goBase p, Ext := goExt p,
      PathWithoutExt := "", Locale := locale }
  let dt := defaultPullDestination
  let dt := if dt ≠ [] then pullFilePathCfg else dt
  let out := renderTemplate dt parts
  localRelativeFilePath root out

/-- The four-part key of the translation cache: locale, local file path,
file type, parser configuration. -/
structure CacheKey where
  locale : String
  localPath : String
  fileType : String
  parserConfig : List (String × String)
deriving DecidableEq

/-- A cache state: stored payload bytes per key. -/
def CacheState : Type := CacheKey → Option (List Nat)

/-- Modelled from the spec: `translateViaCache` (defined outside this source
file) consults the translation cache under its four-part key; on a hit it
returns the stored payload with `hit = true`, on a miss it performs the
fresh retrieval `fetch`, stores the result under the key, and returns it
with `hit = false`. -/
def translateViaCache (fetch : CacheKey → List Nat) (cache : CacheState)
    (k : CacheKey) : Bool × List Nat × CacheState :=
  match cache k with
  | some b => (true, b, cache)
  | none =>
    let b := fetch k
    (false, b, fun k2 => if k2 = k then some b else cache k2)

/-- The destination write of one pull unit: path, bytes, cache-hit flag. -/
structure PullWrite where
  path : String
  bytes : List Nat
  hit : Bool
deriving DecidableEq

/-- One per-(file, locale) unit of `projectPullCommand` (`project.go` lines
113-132): translate via the cache keyed on the locale, the project-relative
local path, the file type and the parser config, compute the destination
with `localPullFilePath`, and write the bytes there; `none` models a panic
on a path error. Returns the write and the cache state it leaves behind. -/
def pullOne (fetch : CacheKey → List Nat) (root : String)
    (pullFilePathCfg : List TemplToken) (fileType : String)
    (parserConfig : List (String × String)) (cache : CacheState)
    (p locale : String) : Option (PullWrite × CacheState) :=
  match localRelativeFilePath root p with
  | none => none
  | some lp =>
    let r := translateViaCache fetch cache
      { locale := locale, localPath := lp, fileType := fileType,
        parserConfig := parserConfig }
    match localPullFilePath root pullFilePathCfg p locale with
    | none => none
    | some fp => some ({ path := fp, bytes := r.2.1, hit := r.1 }, r.2.2)

/-- Two successive pulls of the same (file, locale) pair: the first from the
given cache state, the second from the cache state the first one leaves
behind (no intervening invalidation). Returns both writes. -/
def pullTwice (fetch : CacheKey → List Nat) (root : String)
    (pullFilePathCfg : List TemplToken) (fileType : String)
    (parserConfig : List (String × String)) (cache : CacheState)
    (p locale : String) : Option (PullWrite × PullWrite) :=
  match pullOne fetch root pullFilePathCfg fileType parserConfig cache p locale with
  | none => none
  | some (w1, c1) =>
    match pullOne fetch root pullFilePathCfg fileType parserConfig c1 p locale with
    | none => none
    | some (w2, _) => some (w1, w2)

/-- A client status query returning the same snapshot everywhere: one
awaiting sub-count `a`, one in-progress sub-count `i`, completed count `c`. -/
def constStatus (a i c : Nat) : String → String → FileStatus :=
  fun _ _ =>
    { awaitingSubs := [a], inProgressSubs := [i], completedStringCount := c }

/-- The status query of the C7 scenario: (2, 1, 5) for fr-FR and (0, 0, 7)
for every other locale. -/
def scenarioStatus : String → String → FileStatus := fun _ l =>
  if l = "fr-FR" then
    { awaitingSubs := [2], inProgressSubs := [1], completedStringCount := 5 }
  else
    { awaitingSubs := [], inProgressSubs := [], completedStringCount := 7 }

/-- A fresh-retrieval function returning a fixed payload. -/
def fetchW : CacheKey → List Nat := fun _ => [1, 2]

/-- The empty cache state. -/
def emptyCache : CacheState := fun _ => none

/-- The first write of the concrete pull scenario: a miss. -/
def pw1 : PullWrite := { path := "a.json", bytes := [1, 2], hit := false }

/-- The second write of the concrete pull scenario: a hit. -/
def pw2 : PullWrite := { path := "a.json", bytes := [1, 2], hit := true }

/-- Whether `pat` occurs as a contiguous run inside `l`. -/
def containsSeq (pat : List Char) : List Char → Bool
  | [] => pat.isPrefixOf []
  | c :: cs => pat.isPrefixOf (c :: cs) || containsSeq pat cs

/-- A real path component: non-empty and neither `.` nor `..`. -/
def realComp (c : List Char) : Prop :=
  c ≠ [] ∧ c ≠ ['.'] ∧ c ≠ ['.', '.']

/-- A clean relative path: non-empty, and every slash-separated component
is a real component (so no leading or trailing slash, no empty, `.` or `..`
component). -/
def isCleanRelPath (p : String) : Prop :=
  p ≠ "" ∧ ∀ c ∈ splitSlash p.data, realComp c

instance (c : List Char) : Decidable (realComp c) :=
  inferInstanceAs (Decidable (c ≠ [] ∧ c ≠ ['.'] ∧ c ≠ ['.', '.']))

instance (p : String) : Decidable (isCleanRelPath p) :=
  inferInstanceAs (Decidable (p ≠ "" ∧ ∀ c ∈ splitSlash p.data, realComp c))

example : goClean "/feature-x/copy.json" = "/feature-x/copy.json" := by decide
example : goClean "/" = "/" := by decide
example : goClean "" = "." := by decide
example : goClean "a/.." = "." := by decide
example : goClean "/../a" = "/a" := by decide
example : goClean "../../a" = "../../a" := by decide
example : goClean "./a//b/" = "a/b" := by decide
example : cleanPrefix "" = "" := by decide
example : cleanPrefix "feature-x" = "/feature-x" := by decide
example : goJoin "." "a/fr-FR/b.json" = "a/fr-FR/b.json" := by decide
example : goRelDot "./a/b" = some "a/b" := by decide
example : goRelDot "/a" = none := by decide
example : goDir "a/b.json" = "a" := by decide
example : goDir "b.json" = "." := by decide
example : goBase "a/b.json" = "b.json" := by decide
example : goExt "a/b.json" = ".json" := by decide
example : goExt "a/b" = "" := by decide
example : localRelativeFilePath "." "a/b.json" = some "a/b.json" := by decide
example : localRelativeFilePath "." "" = some "." := by decide

/-- C5 counterexample: with an empty prefix the remote path of `copy.json`
is `/copy.json`, which is not the project file's relative path `copy.json` -
the code roots the remote path with a leading slash even when no prefix is
supplied. -/
theorem push_empty_prefix_remote_counterexample :
    (pushFile (constStatus 1 1 1) "fr-FR" "" "copy.json").remoteFile = "/copy.json" ∧
    (pushFile (constStatus 1 1 1) "fr-FR" "" "copy.json").remoteFile ≠ "copy.json" := by
  decide

/-- C6: pushing `copy.json` under the normalized prefix of `feature-x` uses
the remote path `/feature-x/copy.json`; with a first-locale post-upload
awaiting-authorization count of zero, the remote artifact at that path is
deleted and no count line is printed for the file. -/
theorem push_prefix_scenario_feature_x :
    (pushFile (constStatus 0 3 7) "fr-FR" ( cleanPrefix "feature-x") "copy.json").remoteFile
        = "/feature-x/copy.json" ∧
    Effect.delete "/feature-x/copy.json" ∈
      (pushFile (constStatus 0 3 7) "fr-FR" ( cleanPrefix "feature-x") "copy.json").effects ∧
    ((pushFile (constStatus 0 3 7) "fr-FR" ( cleanPrefix "feature-x") "copy.json").effects.all
        fun e => ! e.isPrintEffect) = true := by
  decide

/-- C7 counterexample: in the scenario with locales `fr-FR`, `de-DE` and the
single file `strings.json` with counts (2, 1, 5) and (0, 0, 7), the rendered
status row contains neither of the spaced cells `2 -> 1 -> 5` and
`0 -> 0 -> 7` claimed by the spec: `fmt.Fprint` separates the counts with
bare `->` and no spaces. -/
theorem status_row_spaced_cells_counterexample :
    containsSeq "2 -> 1 -> 5".data (statusRow
        (projectStatusRun (fun _ => "t") scenarioStatus ["strings.json"] ["fr-FR", "de-DE"])
        ["fr-FR", "de-DE"] "strings.json").data = false ∧
    containsSeq "0 -> 0 -> 7".data (statusRow
        (projectStatusRun (fun _ => "t") scenarioStatus ["strings.json"] ["fr-FR", "de-DE"])
        ["fr-FR", "de-DE"] "strings.json").data = false ∧
    containsSeq "2->1->5".data (statusRow
        (projectStatusRun (fun _ => "t") scenarioStatus ["strings.json"] ["fr-FR", "de-DE"])
        ["fr-FR", "de-DE"] "strings.json").data = true := by
  decide

/-- C7 amended: in the same scenario the rendered status row for
`strings.json` is exactly `strings.json<tab>2->1->5<tab>0->0->7<newline>`:
each cell is formatted as `awaiting->inProgress->completed` with no spaces
around the arrows. -/
theorem status_row_scenario :
    statusRow
        (projectStatusRun (fun _ => "t") scenarioStatus ["strings.json"] ["fr-FR", "de-DE"])
        ["fr-FR", "de-DE"] "strings.json"
      = "strings.json\t2->1->5\t0->0->7\n" := by
  decide

/-- C8: with no custom pull-path template configured (`PullFilePath` empty),
the destination for `a/b.json` and locale `fr-FR` under project root `.` is
`.` - the rendered empty template - and not the project-relative path
`a/b.json` required by the spec: the code guards on the default template
variable instead of the configured one, so the default template is never
used. -/
theorem pull_default_template_bug :
    localPullFilePath "." [] "a/b.json" "fr-FR" = some "." ∧
    localRelativeFilePath "." "a/b.json" = some "a/b.json" ∧
    localPullFilePath "." [] "a/b.json" "fr-FR" ≠ localRelativeFilePath "." "a/b.json" := by
  decide

/-- C9: for project path `a/b.json` and locale `fr-FR`, the configured
template rendering `Dir/Locale/Base` yields the destination
`a/fr-FR/b.json` after relative-path normalization against the project
root. -/
theorem pull_template_rendering_scenario :
    localPullFilePath "."
        [TemplToken.fDir, TemplToken.lit "/", TemplToken.fLocale, TemplToken.lit "/",
          TemplToken.fBase]
        "a/b.json" "fr-FR" = some "a/fr-FR/b.json" := by
  decide

/-- C1: under a non-empty normalized prefix, each per-file push unit issues
a delete of the file's remote artifact exactly when the post-upload
awaiting-authorization count of the first configured locale is zero; when
the delete fires, the outcome is marked as having no new strings and no
count line is printed. -/
theorem push_nonempty_prefix_delete_iff (g : String → String → FileStatus)
    (firstLocale pfx p : String) (h : pfx ≠ "") :
    (Effect.delete (pushFile g firstLocale pfx p).remoteFile
        ∈ (pushFile g firstLocale pfx p).effects ↔
      (g (pushFile g firstLocale pfx p).remoteFile firstLocale).awaitingAuthorizationCount
        = 0) ∧
    ((g (pushFile g firstLocale pfx p).remoteFile firstLocale).awaitingAuthorizationCount
        = 0 →
      (pushFile g firstLocale pfx p).hasNewStrings = false ∧
      ((pushFile g firstLocale pfx p).effects.all fun e => ! e.isPrintEffect) = true) := by
  by_cases hz :
      (g (goClean (pfx ++ "/" ++ p)) firstLocale).awaitingAuthorizationCount = 0 <;>
    simp [pushFile, h, hz, Effect.isPrintEffect]

/-- C1 holds at a concrete input: prefix `/x`, file `a.json`, awaiting
count zero, delete issued. -/
theorem push_nonempty_prefix_delete_iff_holds_at :
    ("/x" : String) ≠ "" ∧
    (Effect.delete (pushFile (constStatus 0 1 2) "fr" "/x" "a.json").remoteFile
        ∈ (pushFile (constStatus 0 1 2) "fr" "/x" "a.json").effects ↔
      ((constStatus 0 1 2) (pushFile (constStatus 0 1 2) "fr" "/x" "a.json").remoteFile
        "fr").awaitingAuthorizationCount = 0) :=
  ⟨by decide,
    (push_nonempty_prefix_delete_iff (constStatus 0 1 2) "fr" "/x" "a.json" (by decide)).1⟩

/-- C2: a push run whose normalized prefix is empty issues no delete effect
at all, whatever the client returns for any status query. -/
theorem push_no_prefix_no_delete (g : String → String → FileStatus)
    (locales files : List String) (effs : List Effect)
    (h : projectPushRun g locales "" files = some effs) :
    (effs.all fun e => ! e.isDeleteEffect) = true := by
  cases locales with
  | nil => simp [projectPushRun] at h
  | cons l ls =>
    simp only [projectPushRun, Option.some.injEq] at h
    subst h
    induction files with
    | nil => simp
    | cons p ps ih =>
      simp only [List.flatMap_cons, List.all_append, ih, Bool.and_true]
      simp [pushFile, Effect.isDeleteEffect]

/-- C2 holds at a concrete input: one locale, one file, empty prefix. -/
theorem push_no_prefix_no_delete_holds_at :
    (((projectPushRun (constStatus 0 1 2) ["fr"] "" ["a.json"]).getD []).all
      fun e => ! e.isDeleteEffect) = true :=
  push_no_prefix_no_delete (constStatus 0 1 2) ["fr"] ["a.json"]
    ((projectPushRun (constStatus 0 1 2) ["fr"] "" ["a.json"]).getD []) (by decide)

/-- C10: with an empty locale list the push command aborts (the
`locales[0]` access) before any per-file unit runs and produces no effects;
with a non-empty locale list the run proceeds, so a non-empty locale list
is the unstated precondition of push. -/
theorem push_requires_nonempty_locales (g : String → String → FileStatus)
    (pfx : String) (files locales : List String) (h : locales ≠ []) :
    projectPushRun g [] pfx files = none ∧
    (projectPushRun g locales pfx files).isSome = true := by
  refine ⟨rfl, ?_⟩
  cases locales with
  | nil => exact absurd rfl h
  | cons l ls => rfl

/-- C10 holds at a concrete input: the singleton locale list `fr`. -/
theorem push_requires_nonempty_locales_holds_at :
    (["fr"] : List String) ≠ [] ∧
    projectPushRun (constStatus 0 1 2) [] "" ["a.json"] = none ∧
    (projectPushRun (constStatus 0 1 2) ["fr"] "" ["a.json"]).isSome = true :=
  ⟨by decide,
    push_requires_nonempty_locales (constStatus 0 1 2) "" ["a.json"] ["fr"] (by decide)⟩

/-- Lookup after the inner per-locale insertion loop: the cell (f, l0) holds
the queried status for every locale of the list, other cells are
untouched. -/
theorem locales_foldl_lookup (g2 : String → FileStatus) (f : String)
    (locales : List String) (m : StatusMatrix) (f0 l0 : String) :
    (locales.foldl (fun m2 l => insertStatus m2 f l (g2 l)) m) f0 l0 =
      if f0 = f ∧ l0 ∈ locales then some (g2 l0) else m f0 l0 := by
  induction locales generalizing m with
  | nil => simp
  | cons l ls ih =>
    simp only [List.foldl_cons, ih]
    by_cases hf : f0 = f
    · by_cases hmem : l0 ∈ ls
      · simp [hf, hmem]
      · by_cases hl : l0 = l <;> simp [hf, hmem, hl, insertStatus]
    · simp [hf, insertStatus]

/-- Full characterization of the status run: the matrix holds exactly the
cells of files × locales, each carrying the client's status for the file's
temp handle and the locale. -/
theorem projectStatusRun_lookup (tmp : String → String)
    (g : String → String → FileStatus) (files locales : List String) (f0 l0 : String) :
    projectStatusRun tmp g files locales f0 l0 =
      if f0 ∈ files ∧ l0 ∈ locales then some (g (tmp f0) l0) else none := by
  have main : ∀ (fl : List String) (m : StatusMatrix),
      (fl.foldl
        (fun m f => locales.foldl (fun m2 l => insertStatus m2 f l (g (tmp f) l)) m) m) f0 l0 =
        if f0 ∈ fl ∧ l0 ∈ locales then some (g (tmp f0) l0) else m f0 l0 := by
    intro fl
    induction fl with
    | nil => intro m; simp
    | cons f fs ih =>
      intro m
      simp only [List.foldl_cons, ih, locales_foldl_lookup]
      by_cases hmem : f0 ∈ fs ∧ l0 ∈ locales
      · simp [hmem, List.mem_cons, hmem.1, hmem.2]
      · by_cases hf : f0 = f
        · subst hf
          by_cases hl : l0 ∈ locales <;> simp [hmem, hl]
        · simp [hmem, hf]
  exact main files emptyMatrix

/-- C3: after a successful status run over files F and locales L, the
matrix has an entry exactly for every (file, locale) pair of F × L, and
every stored entry's awaiting-authorization and in-progress counts are the
sums over their sub-state sources, all three counts being non-negative
integers. -/
theorem status_matrix_ok (tmp : String → String) (g : String → String → FileStatus)
    (files locales : List String) (f l : String) :
    ((projectStatusRun tmp g files locales f l).isSome = true ↔
      f ∈ files ∧ l ∈ locales) ∧
    (∀ fs, projectStatusRun tmp g files locales f l = some fs →
      fs.awaitingAuthorizationCount = fs.awaitingSubs.sum ∧
      fs.inProgressCount = fs.inProgressSubs.sum ∧
      0 ≤ (fs.awaitingAuthorizationCount : Int) ∧
      0 ≤ (fs.inProgressCount : Int) ∧
      0 ≤ (fs.completedStringCount : Int)) := by
  constructor
  · rw [projectStatusRun_lookup]
    by_cases h : f ∈ files ∧ l ∈ locales <;> simp [h]
  · intro fs _
    exact ⟨rfl, rfl, Int.natCast_nonneg _, Int.natCast_nonneg _, Int.natCast_nonneg _⟩

/-- C3 holds at a concrete input: one file, one locale, the cell is present
and its awaiting count is the sum of its sub-state sources. -/
theorem status_matrix_ok_holds_at :
    ((projectStatusRun (fun _ => "t") (constStatus 1 2 3) ["a"] ["fr"] "a" "fr").isSome
      = true) ∧
    (({ awaitingSubs := [1], inProgressSubs := [2], completedStringCount := 3 } :
        FileStatus).awaitingAuthorizationCount = [1].sum) :=
  ⟨(status_matrix_ok (fun _ => "t") (constStatus 1 2 3) ["a"] ["fr"] "a" "fr").1.mpr
      (by decide),
    ((status_matrix_ok (fun _ => "t") (constStatus 1 2 3) ["a"] ["fr"] "a" "fr").2
      { awaitingSubs := [1], inProgressSubs := [2], completedStringCount := 3 }
      (by decide)).1⟩

/-- A second cache consultation under the key a first consultation
completed returns a hit with the first consultation's payload and leaves
the cache state unchanged. -/
theorem translateViaCache_stable (fetch : CacheKey → List Nat) (cache : CacheState)
    (k : CacheKey) :
    translateViaCache fetch (translateViaCache fetch cache k).2.2 k =
      (true, (translateViaCache fetch cache k).2.1,
        (translateViaCache fetch cache k).2.2) := by
  cases hc : cache k with
  | some b => simp [translateViaCache, hc]
  | none => simp [translateViaCache, hc]

/-- C4: pulling the same (file, locale) pair twice with no intervening
cache invalidation writes byte-identical content to the same destination
path both times, and the second pull reports a cache hit. -/
theorem pull_cache_idempotent (fetch : CacheKey → List Nat) (root : String)
    (cfg : List TemplToken) (ft : String) (pc : List (String × String))
    (cache : CacheState) (p locale : String) (w1 w2 : PullWrite)
    (h : pullTwice fetch root cfg ft pc cache p locale = some (w1, w2)) :
    w2.path = w1.path ∧ w2.bytes = w1.bytes ∧ w2.hit = true := by
  cases hrel : localRelativeFilePath root p with
  | none => simp [pullTwice, pullOne, hrel] at h
  | some lp =>
    cases hfp : localPullFilePath root cfg p locale with
    | none => simp [pullTwice, pullOne, hrel, hfp] at h
    | some fp =>
      simp only [pullTwice, pullOne, hrel, hfp] at h
      rw [translateViaCache_stable] at h
      simp only [Option.some.injEq, Prod.mk.injEq] at h
      obtain ⟨h1, h2⟩ := h
      subst h1
      subst h2
      simp

/-- C4 holds at a concrete input: an empty cache, a miss then a hit with
identical payload and destination. -/
theorem pull_cache_idempotent_holds_at :
    pullTwice fetchW "." [TemplToken.fPath] "json" [] emptyCache "a.json" "fr"
        = some (pw1, pw2) ∧
    pw2.path = pw1.path ∧ pw2.bytes = pw1.bytes ∧ pw2.hit = true :=
  ⟨by decide,
    pull_cache_idempotent fetchW "." [TemplToken.fPath] "json" [] emptyCache "a.json" "fr"
      pw1 pw2 (by decide)⟩

/-- Splitting always yields at least one component. -/
theorem splitSlash_ne_nil (l : List Char) : splitSlash l ≠ [] := by
  cases l with
  | nil => simp [splitSlash]
  | cons c cs =>
    simp only [splitSlash]
    by_cases h : c = '/'
    · simp [h]
    · simp only [h, if_false]
      cases hs : splitSlash cs <;> simp

/-- Joining the components of `splitSlash` restores the character list. -/
theorem joinSlash_splitSlash (l : List Char) : joinSlash (splitSlash l) = l := by
  induction l with
  | nil => rfl
  | cons c cs ih =>
    obtain ⟨g, gs, hg⟩ := List.exists_cons_of_ne_nil (splitSlash_ne_nil cs)
    by_cases h : c = '/'
    · subst h
      rw [show splitSlash ('/' :: cs) = [] :: splitSlash cs from by simp [splitSlash]]
      rw [hg] at ih ⊢
      simpa [joinSlash] using ih
    · rw [show splitSlash (c :: cs) = (c :: g) :: gs from by
        simp only [splitSlash, h, if_false, hg]]
      rw [hg] at ih
      cases gs with
      | nil => simpa [joinSlash] using congrArg (c :: ·) ih
      | cons g2 gs2 => simpa [joinSlash] using congrArg (c :: ·) ih

/-- The cleaning loop pushes every real component, so over real components
it accumulates the reversed component list on top of the stack. -/
theorem cleanStep_foldl_real (r : Bool) (comps : List (List Char))
    (st : List (List Char)) (h : ∀ c ∈ comps, realComp c) :
    comps.foldl (cleanStep r) st = comps.reverse ++ st := by
  induction comps generalizing st with
  | nil => simp
  | cons c cs ih =>
    obtain ⟨h1, h2, h3⟩ := h c (by simp)
    have hstep : cleanStep r st c = c :: st := by
      simp [cleanStep, h1, h2, h3]
    simp only [List.foldl_cons, hstep]
    rw [ih (c :: st) (fun c2 hc2 => h c2 (by simp [hc2]))]
    simp

/-- Cleaning a clean relative path rooted with a leading slash changes
nothing: `filepath.Clean ("/" ++ p) = "/" ++ p`. -/
theorem goClean_rooted_of_clean (p : String) (h : isCleanRelPath p) :
    goClean ("/" ++ p) = "/" ++ p := by
  obtain ⟨hne, hcomps⟩ := h
  have hdata : ("/" ++ p).data = '/' :: p.data := by
    rw [String.data_append]; rfl
  have hsplit : splitSlash ('/' :: p.data) = [] :: splitSlash p.data := by
    simp [splitSlash]
  have hfold : (([] : List Char) :: splitSlash p.data).foldl (cleanStep true) [] =
      (splitSlash p.data).reverse := by
    rw [List.foldl_cons]
    rw [show cleanStep true [] [] = [] from by simp [cleanStep]]
    simpa using cleanStep_foldl_real true (splitSlash p.data) [] hcomps
  have hroot : isRooted ('/' :: p.data) = true := rfl
  have hgoal : goCleanL ('/' :: p.data) = '/' :: p.data := by
    simp only [goCleanL, List.cons_ne_nil, if_false, hroot, hsplit, if_true, hfold,
      List.reverse_reverse, joinSlash_splitSlash]
  rw [show ("/" ++ p : String) = String.mk ('/' :: p.data) from by rw [← hdata]]
  show String.mk (goCleanL ('/' :: p.data)) = String.mk ('/' :: p.data)
  rw [hgoal]

/-- C5 amended: with an empty prefix the remote path of a clean relative
project path `p` is `/` ++ p - the project file's relative path rooted with
a leading slash - rather than `p` itself. -/
theorem push_empty_prefix_remote (g : String → String → FileStatus)
    (firstLocale p : String) (h : isCleanRelPath p) :
    (pushFile g firstLocale "" p).remoteFile = "/" ++ p := by
  show goClean ("" ++ "/" ++ p) = "/" ++ p
  rw [show ("" ++ "/" : String) = "/" from by decide]
  exact goClean_rooted_of_clean p h

/-- C5 amended holds at a concrete input: the clean relative path
`copy.json` maps to the remote path `/copy.json`. -/
theorem push_empty_prefix_remote_holds_at :
    isCleanRelPath "copy.json" ∧
    (pushFile (constStatus 1 1 1) "fr" "" "copy.json").remoteFile = "/" ++ "copy.json" :=
  ⟨by decide, push_empty_prefix_remote (constStatus 1 1 1) "fr" "copy.json" (by decide)⟩

end Smartling
